import Mathlib

/-!
Shallow embedding of `IDBNoJournalFile` (a virtual SQLite rollback-journal
file backed by an IndexedDB-style page store) and proofs about its read,
write and open paths.

Modelling conventions:
* JS byte buffers (`Int8Array`/`Uint8Array`) are `List Nat` whose elements
  are byte values `0..255`; signed/unsigned views agree at the byte level.
* JS `NaN` sentinels (`sectorSize`, `pageSize`, `nonce` before the header
  is parsed) are `none`; every JS comparison against `NaN` is false.
* `DataView.getUint32`/`setUint32` are big-endian (`getU32`/`be32`).
* The sparse JS array `pageIndexes` is a `List (Option Nat)`; holes and
  out-of-range reads are `none` (JS `undefined`).
* Write-path exceptions are modelled with the state as mutated up to the
  throwing statement (`xWrite` returns the state plus an optional error),
  mirroring the JS partial mutation order.  Read-path exceptions discard
  the state (`xRead` returns `Except`); no theorem below inspects the
  state after a failed read.
-/

namespace IDBNoJournal

/-- `DataView.setUint32` big-endian: the 4 bytes of `v` reduced mod `2^32`. -/
def be32 (v : Nat) : List Nat :=
  [v % 2 ^ 32 / 2 ^ 24, v % 2 ^ 24 / 2 ^ 16, v % 2 ^ 16 / 2 ^ 8, v % 2 ^ 8]

/-- `DataView.getUint32` big-endian at byte offset `off`; `none` when fewer
than 4 bytes are available (JS throws a `RangeError`). -/
def getU32 (l : List Nat) (off : Nat) : Option Nat :=
  if off + 4 ≤ l.length then
    some (l.getD off 0 * 2 ^ 24 + l.getD (off + 1) 0 * 2 ^ 16 +
          l.getD (off + 2) 0 * 2 ^ 8 + l.getD (off + 3) 0)
  else none

/-- `TypedArray.set(bs, off)`: overwrite `l[off .. off + bs.length)` with
`bs`.  Callers establish `off + bs.length ≤ l.length`. -/
def writeAt (l : List Nat) (off : Nat) (bs : List Nat) : List Nat :=
  l.take off ++ bs ++ l.drop (off + bs.length)

/-- Sparse JS array store `pageIndexes[i] = v`: extend with holes up to
index `i` if needed, then set slot `i`. -/
def setSlot (l : List (Option Nat)) (i : Nat) (v : Nat) : List (Option Nat) :=
  (if l.length ≤ i then l ++ List.replicate (i + 1 - l.length) none else l).set i (some v)

/-- JS `a >= b` where `b` may be `NaN` (`none`): comparisons with `NaN`
are false. -/
def jsGE (a : Nat) : Option Nat → Bool
  | none => false
  | some b => decide (b ≤ a)

/-- Mutable instance state of an `IDBNoJournalFile`. -/
structure JState where
  headerSector : List Nat
  sectorSize : Option Nat
  pageSize : Option Nat
  nonce : Option Nat
  pageIndexes : List (Option Nat)
  cachedPageIndex : Nat
  cachedPageEntry : Option (List Nat)
  /-- Number of `dbFile.commit()` notifications sent so far. -/
  commitCount : Nat
deriving Repr, DecidableEq

/-- Field initializers of a fresh `IDBNoJournalFile`. -/
def initState : JState :=
  { headerSector := [], sectorSize := none, pageSize := none, nonce := none,
    pageIndexes := [], cachedPageIndex := 0, cachedPageEntry := none,
    commitCount := 0 }

/-- `this.sectorSize + this.pageIndexes.length * this.entrySize`; `none`
when the JS value is `NaN` (either header field still unset). -/
def totalLen (st : JState) : Option Nat :=
  match st.sectorSize, st.pageSize with
  | some s, some p => some (s + st.pageIndexes.length * (p + 8))
  | _, _ => none

/-- The `xRead` short-read guard `iOffset >= sectorSize + len*entrySize`
(false when the bound is `NaN`). -/
def isShortRead (st : JState) (iOffset : Nat) : Bool :=
  match totalLen st with
  | some t => decide (t ≤ iOffset)
  | none => false

/-- One checksum addition `result += data[x]`: the accumulator is `none`
once the JS value is `NaN` (adding the `undefined` produced by an
out-of-range index keeps it `NaN`). -/
def checksumStep (acc b : Option Nat) : Option Nat :=
  match acc, b with
  | some a, some v => some (a + v)
  | _, _ => none

/-- The checksum loop: `result += data[x]; x -= 200` while `x > 0`. -/
def checksumAux (data : List Nat) (x : Int) (acc : Option Nat) : Option Nat :=
  if 0 < x then checksumAux data (x - 200) (checksumStep acc (data.get? x.toNat))
  else acc
termination_by x.toNat
decreasing_by
  simp_wf
  omega

/-- The 32-bit checksum field value the source stores via `setUint32`:
start from the nonce, add the sampled bytes, reduce mod `2^32`; a `NaN`
result (unset nonce or out-of-range sample) stores 0. -/
def checksumField (nonce : Option Nat) (pageSize : Nat) (data : List Nat) : Nat :=
  match checksumAux data ((pageSize : Int) - 200) nonce with
  | some v => v % 2 ^ 32
  | none => 0

/-- Build the cached rollback page entry: fresh zero buffer of
`entrySize = pageSize + 8` bytes, page number big-endian at 0, fetched
content at 4, checksum big-endian in the last 4 bytes.  `none` when the
content does not fit (`TypedArray.set` throws before the copy). -/
def buildEntry (nonce : Option Nat) (p pn : Nat) (content : List Nat) :
    Option (List Nat) :=
  if content.length + 4 ≤ p + 8 then
    some (writeAt (writeAt (writeAt (List.replicate (p + 8) 0) 0 (be32 pn))
            4 content) (p + 4) (be32 (checksumField nonce p content)))
  else none

/-- Result of a successful `xRead` call. -/
structure ReadOut where
  /-- `true` when `SQLITE_IOERR_SHORT_READ` is returned. -/
  short : Bool
  /-- The bytes the call copies into the destination buffer, starting at
  destination index 0.  On a short read the source fills the empty index
  range `[pData.size, pData.value.length)`, writing nothing. -/
  written : List Nat
  /-- Whether the call fetched a page from the backing store. -/
  fetched : Bool
deriving Repr, DecidableEq

/-- `IDBNoJournalFile.xRead`.  `store` is the backing page store keyed by
the zero-based page index (`database.get([dbFile.name, pageIndex - 1])`,
signed key).  Errors model thrown JS exceptions. -/
def xRead (store : Int → Option (List Nat)) (st : JState)
    (iOffset len : Nat) : Except String (ReadOut × JState) :=
  if isShortRead st iOffset then
    -- `pData.value.fill(0, pData.size)` fills the index range
    -- `[pData.size, pData.value.length)`, which is empty: the destination
    -- is left untouched.
    .ok ({ short := true, written := [], fetched := false }, st)
  else if jsGE iOffset st.sectorSize then
    match st.sectorSize, st.pageSize with
    | some s, some p =>
      let e := p + 8
      let entryIndex := (iOffset - s) / e
      match st.pageIndexes.getD entryIndex none with
      | none => .error "unassigned ledger slot"
      | some pn =>
        let skip := (iOffset - s) % e
        if st.cachedPageIndex = pn then
          match st.cachedPageEntry with
          | none => .error "null cached entry"
          | some entry =>
            .ok ({ short := false, written := (entry.drop skip).take len,
                   fetched := false }, st)
        else
          match store ((pn : Int) - 1) with
          | none => .error "page not in store"
          | some content =>
            match buildEntry st.nonce p pn content with
            | none => .error "page content exceeds entry size"
            | some entry =>
              .ok ({ short := false, written := (entry.drop skip).take len,
                     fetched := true },
                   { st with cachedPageIndex := pn,
                             cachedPageEntry := some entry })
    | _, _ =>
      -- `sectorSize` is set here, so this is the `pageSize = NaN` corner:
      -- the JS entry arithmetic degenerates to `NaN` and building the
      -- cache entry throws a `RangeError` on the zero-length buffer.
      .error "entry arithmetic on unset page size"
  else
    .ok ({ short := false,
           written := (st.headerSector.drop iOffset).take len,
           fetched := false }, st)

/-- First statement block of `IDBNoJournalFile.xWrite`: the header-region
store, or the ledger-slot store for offsets at or beyond the sector size.
Returns the state as mutated up to the first thrown exception, paired with
`none` on success or `some msg` for an exception. -/
def xWriteStep1 (st : JState) (iOffset : Nat) (bytes : List Nat) :
    JState × Option String :=
  if ¬ jsGE iOffset st.sectorSize then
    -- Store header data, growing by the write's length when
    -- `headerSector.length < iOffset + pData.size`.
    let hdr := st.headerSector
    let hdr := if hdr.length < iOffset + bytes.length then
                 hdr ++ List.replicate bytes.length 0
               else hdr
    if iOffset + bytes.length ≤ hdr.length then
      ({ st with headerSector := writeAt hdr iOffset bytes }, none)
    else
      -- The grown zero-padded buffer is installed before `set` throws.
      ({ st with headerSector := hdr }, some "header set out of range")
  else
    match st.sectorSize, st.pageSize with
    | some s, some p =>
      if (iOffset - s) % (p + 8) = 0 then
        match getU32 bytes 0 with
        | some pn =>
          ({ st with pageIndexes :=
              setSlot st.pageIndexes ((iOffset - s) / (p + 8)) pn }, none)
        | none =>
          -- The JS `DataView` would read heap bytes beyond the write
          -- buffer; that data is outside the model.
          (st, some "entry write shorter than 4 bytes")
      else (st, none)
    | _, _ =>
      -- `pageSize = NaN`: `(iOffset - sectorSize) % NaN` is `NaN`,
      -- which is not `=== 0`, so the branch is skipped.
      (st, none)

/-- Header-field extraction of `xWrite` for a write at offset 0 whose
first byte is nonzero: `nonce`, `sectorSize`, `pageSize` from the (already
updated) header buffer at offsets 12, 20, 24, assigned in that order; a
zero field keeps `this.sectorSize` via JS `||`, and a zero page-size field
falls back to the just-assigned `sectorSize`. -/
def parseHeader (st : JState) : JState × Option String :=
  -- The three `view.getUint32` reads all target the same untouched
  -- header buffer, so the sequential field assignments are written here
  -- with the earlier assignments substituted in.
  match getU32 st.headerSector 12 with
  | none => (st, some "header shorter than 16 bytes")
  | some v12 =>
    match getU32 st.headerSector 20 with
    | none =>
      ({ st with nonce := some v12 }, some "header shorter than 24 bytes")
    | some v20 =>
      match getU32 st.headerSector 24 with
      | none =>
        ({ st with nonce := some v12,
                   sectorSize := if v20 ≠ 0 then some v20 else st.sectorSize },
         some "header shorter than 28 bytes")
      | some v24 =>
        ({ st with nonce := some v12,
                   sectorSize := if v20 ≠ 0 then some v20 else st.sectorSize,
                   pageSize := if v24 ≠ 0 then some v24
                               else if v20 ≠ 0 then some v20
                               else st.sectorSize }, none)

/-- `IDBNoJournalFile.xWrite`: the store block, then, for a write at
offset 0, either the header parse (nonzero first byte) or the commit
notification to the sibling database file (zero first byte; an empty
write reads `undefined`, which is falsy). -/
def xWrite (st : JState) (iOffset : Nat) (bytes : List Nat) :
    JState × Option String :=
  match xWriteStep1 st iOffset bytes with
  | (st1, some e) => (st1, some e)
  | (st1, none) =>
    if iOffset = 0 then
      if bytes.headD 0 ≠ 0 then parseHeader st1
      else ({ st1 with commitCount := st1.commitCount + 1 }, none)
    else (st1, none)

/-- A registered database file, as seen by the journal constructor.  File
names are modelled as their character sequences. -/
structure DbFile where
  name : List Char
deriving Repr, DecidableEq

/-- The eight characters of the journal-name suffix. -/
def journalSuffix : List Char := ['-', 'j', 'o', 'u', 'r', 'n', 'a', 'l']

/-- The constructor's `name.replace` call with the anchored journal-suffix
pattern: strip a trailing `-journal` when present. -/
def stripJournal (name : List Char) : List Char :=
  if name.drop (name.length - 8) = journalSuffix then
    name.take (name.length - 8)
  else name

/-- The constructor's `for (const [dbFileId, dbFile] of mapIdToFile)` loop
without `break`: the last matching pair wins. -/
def findDbFile (m : List (Nat × DbFile)) (dbName : List Char) :
    Option (Nat × DbFile) :=
  m.foldl (fun acc e => if e.2.name = dbName then some e else acc) none

/-- `IDBNoJournalFile` constructor: resolve the sibling database file or
throw `open database not found`. -/
def journalOpen (name : List Char) (m : List (Nat × DbFile)) :
    Except String (Nat × DbFile) :=
  match findDbFile m (stripJournal name) with
  | some e => .ok e
  | none => .error "open database not found"

deriving instance DecidableEq for Except

/-- The checksum sum as the spec states it: `Σ content[x]` for
`x = pageSize - 200, pageSize - 400, ...` while `x > 0`. -/
def specSum (content : List Nat) (x : Nat) : Nat :=
  if 0 < x then content.getD x 0 + specSum content (x - 200) else 0
termination_by x
decreasing_by
  simp_wf
  omega

/-- The fully reconstructed journal entry for page `pn`: big-endian page
number, page content, big-endian checksum. -/
def entryBytes (nc p pn : Nat) (content : List Nat) : List Nat :=
  be32 pn ++ (content ++ be32 (checksumField (some nc) p content))

/-- The page number an in-range entry read at `iOffset` resolves to
(`none` for short reads, header reads, and unassigned slots). -/
def resolvesPage (st : JState) (iOffset : Nat) : Option Nat :=
  if isShortRead st iOffset then none
  else
    match st.sectorSize, st.pageSize with
    | some s, some p =>
      if s ≤ iOffset then st.pageIndexes.getD ((iOffset - s) / (p + 8)) none
      else none
    | _, _ => none

/-- State with header fields parsed and an empty ledger, used to exercise
the short-read boundary. -/
def c3State : JState :=
  { initState with sectorSize := some 512, pageSize := some 4096,
                   nonce := some 0 }

/-- A 28-byte journal header image: nonzero first byte, nonce field 1,
sector-size field 512, page-size field 0. -/
def c4Bytes : List Nat :=
  [217] ++ List.replicate 11 0 ++ be32 1 ++ List.replicate 4 0 ++
    be32 512 ++ be32 0

/-- State with previously parsed `sectorSize = 7` and `pageSize = 4096`. -/
def c4State : JState :=
  { initState with sectorSize := some 7, pageSize := some 4096 }

/-- Fresh file whose header already holds three bytes, used to exercise
the header-write frame and read-back. -/
def c5State : JState :=
  { initState with headerSector := [3, 4, 5] }

/-- Tiny parsed state: sector size 2, page size 1, nonce 5, ledger slot 0
holding page number 3. -/
def tinyState : JState :=
  { initState with sectorSize := some 2, pageSize := some 1,
                   nonce := some 5, pageIndexes := [some 3] }

/-- Backing page store holding one page at zero-based index 2
(page number 3), with content byte 9. -/
def tinyStore : Int → Option (List Nat) :=
  fun k => if k = 2 then some [9] else none

/-- The state after a read against `tinyState` has reconstructed and
cached the entry for page number 3. -/
def tinyCached : JState :=
  { tinyState with cachedPageIndex := 3,
                   cachedPageEntry := some [0, 0, 0, 3, 9, 0, 0, 0, 5] }

/-- The output of the first full-entry read against `tinyState`. -/
def tinyOut : ReadOut :=
  { short := false, written := [0, 0, 0, 3, 9, 0, 0, 0, 5], fetched := true }

lemma jsGE_zero_eq_false (o : Option Nat) (h : o ≠ some 0) :
    jsGE 0 o = false := by
  match o with
  | none => rfl
  | some 0 => exact absurd rfl h
  | some (n + 1) => rfl

lemma writeAt_length (l bs : List Nat) (off : Nat)
    (h : off + bs.length ≤ l.length) :
    (writeAt l off bs).length = l.length := by
  simp only [writeAt, List.length_append, List.length_take, List.length_drop]
  omega

lemma writeAt_slice (l bs : List Nat) (off : Nat)
    (h : off + bs.length ≤ l.length) :
    ((writeAt l off bs).drop off).take bs.length = bs := by
  unfold writeAt
  rw [List.append_assoc,
    List.drop_left' (by rw [List.length_take]; omega),
    List.take_left' rfl]

/-- The header-region store of `xWriteStep1` under the no-gap hypothesis
`iOffset ≤ headerSector.length`: grow if needed, then copy. -/
lemma xWriteStep1_header (st : JState) (iOffset : Nat) (bytes : List Nat)
    (hreg : jsGE iOffset st.sectorSize = false)
    (hoff : iOffset ≤ st.headerSector.length) :
    xWriteStep1 st iOffset bytes =
      ({ st with headerSector :=
          writeAt (if st.headerSector.length < iOffset + bytes.length then
                     st.headerSector ++ List.replicate bytes.length 0
                   else st.headerSector) iOffset bytes }, none) := by
  unfold xWriteStep1
  rw [hreg]
  simp only [Bool.false_eq_true, not_false_eq_true, if_true]
  rw [if_pos]
  split
  next hlt => simp only [List.length_append, List.length_replicate]; omega
  next hge => omega

lemma parseHeader_ok (st : JState) (v12 v20 v24 : Nat)
    (h12 : getU32 st.headerSector 12 = some v12)
    (h20 : getU32 st.headerSector 20 = some v20)
    (h24 : getU32 st.headerSector 24 = some v24) :
    parseHeader st =
      ({ st with nonce := some v12,
                 sectorSize := if v20 ≠ 0 then some v20 else st.sectorSize,
                 pageSize := if v24 ≠ 0 then some v24
                             else if v20 ≠ 0 then some v20
                             else st.sectorSize }, none) := by
  simp only [parseHeader, h12, h20, h24]

lemma parseHeader_frame (st : JState) :
    (parseHeader st).1.commitCount = st.commitCount ∧
    (parseHeader st).1.headerSector = st.headerSector ∧
    (parseHeader st).1.pageIndexes = st.pageIndexes ∧
    (parseHeader st).1.cachedPageIndex = st.cachedPageIndex ∧
    (parseHeader st).1.cachedPageEntry = st.cachedPageEntry := by
  unfold parseHeader
  rcases getU32 st.headerSector 12 with _ | v12
  · exact ⟨rfl, rfl, rfl, rfl, rfl⟩
  rcases getU32 st.headerSector 20 with _ | v20
  · exact ⟨rfl, rfl, rfl, rfl, rfl⟩
  rcases getU32 st.headerSector 24 with _ | v24 <;>
    exact ⟨rfl, rfl, rfl, rfl, rfl⟩

/-- C7: a write at offset 0 whose first byte is zero sends exactly one
commit notification to the sibling database file and leaves the Page
Index Ledger unchanged; a write at offset 0 with a nonzero first byte
sends no commit notification. -/
theorem c7_zero_header_write_commits (st : JState) (bytes : List Nat)
    (hss : st.sectorSize ≠ some 0) :
    (bytes.headD 0 = 0 →
      (xWrite st 0 bytes).2 = none ∧
      (xWrite st 0 bytes).1.commitCount = st.commitCount + 1 ∧
      (xWrite st 0 bytes).1.pageIndexes = st.pageIndexes) ∧
    (bytes.headD 0 ≠ 0 →
      (xWrite st 0 bytes).1.commitCount = st.commitCount) := by
  have hreg := jsGE_zero_eq_false st.sectorSize hss
  have hdr1 := xWriteStep1_header st 0 bytes hreg (Nat.zero_le _)
  constructor
  · intro h0
    have h0' : bytes.head?.getD 0 = 0 := by simpa [List.headD_eq_head?_getD] using h0
    unfold xWrite
    rw [hdr1]
    simp [h0']
  · intro h0
    have h0' : ¬ bytes.head?.getD 0 = 0 := by
      simpa [List.headD_eq_head?_getD] using h0
    unfold xWrite
    rw [hdr1]
    simp only [List.headD_eq_head?_getD, ne_eq, h0', not_false_eq_true,
      if_true, if_pos rfl]
    exact (parseHeader_frame _).1

/-- Witness for C7: clearing the header with a single zero byte bumps the
commit count by exactly one and leaves the ledger empty. -/
theorem c7_zero_header_write_commits_witness :
    (xWrite c3State 0 [0]).2 = none ∧
    (xWrite c3State 0 [0]).1.commitCount = c3State.commitCount + 1 ∧
    (xWrite c3State 0 [0]).1.pageIndexes = c3State.pageIndexes :=
  (c7_zero_header_write_commits c3State [0] (by decide)).1 rfl

/-- C6: for a write at or beyond the sector size with both header fields
set, an entry-aligned offset stores the big-endian page number decoded
from the first 4 written bytes at ledger slot
`(offset - sectorSize) / entrySize` and changes nothing else; a
non-aligned offset changes no component state at all. -/
theorem c6_entry_write_ledger_only (st : JState) (iOffset : Nat)
    (bytes : List Nat) (s p : Nat)
    (hs : st.sectorSize = some s) (hp : st.pageSize = some p)
    (hspos : 0 < s) (hoff : s ≤ iOffset) :
    ((iOffset - s) % (p + 8) = 0 →
      ∀ pn, getU32 bytes 0 = some pn →
        xWrite st iOffset bytes =
          ({ st with pageIndexes :=
              setSlot st.pageIndexes ((iOffset - s) / (p + 8)) pn }, none)) ∧
    ((iOffset - s) % (p + 8) ≠ 0 → xWrite st iOffset bytes = (st, none)) := by
  have hoff0 : iOffset ≠ 0 := by omega
  have hge : jsGE iOffset st.sectorSize = true := by
    rw [hs]
    exact decide_eq_true hoff
  constructor
  · intro hal pn hpn
    have hstep : xWriteStep1 st iOffset bytes =
        ({ st with pageIndexes :=
            setSlot st.pageIndexes ((iOffset - s) / (p + 8)) pn }, none) := by
      unfold xWriteStep1
      rw [hs, hp]
      simp [jsGE, hoff, hal, hpn]
    unfold xWrite
    rw [hstep]
    simp [hoff0]
  · intro hal
    have hstep : xWriteStep1 st iOffset bytes = (st, none) := by
      unfold xWriteStep1
      rw [hs, hp]
      simp [jsGE, hoff, hal]
    unfold xWrite
    rw [hstep]
    simp [hoff0]

/-- Witness for C6: slot 1 of the tiny state receives page number 7 from
an aligned write, and a misaligned write is a no-op. -/
theorem c6_entry_write_ledger_only_witness :
    xWrite tinyState 11 [0, 0, 0, 7] =
      ({ tinyState with
          pageIndexes := setSlot tinyState.pageIndexes ((11 - 2) / (1 + 8)) 7 },
        none) ∧
    xWrite tinyState 3 [1, 2] = (tinyState, none) :=
  ⟨(c6_entry_write_ledger_only tinyState 11 [0, 0, 0, 7] 2 1 rfl rfl
      (by decide) (by decide)).1 (by decide) 7 (by decide),
   (c6_entry_write_ledger_only tinyState 3 [1, 2] 2 1 rfl rfl
      (by decide) (by decide)).2 (by decide)⟩

lemma checksumAux_nonpos (data : List Nat) (x : Int) (acc : Option Nat)
    (h : x ≤ 0) : checksumAux data x acc = acc := by
  rw [checksumAux, if_neg (by omega)]

lemma specSum_zero (content : List Nat) : specSum content 0 = 0 := by
  rw [specSum, if_neg (by omega)]

lemma checksumAux_eq_specSum (data : List Nat) (x a : Nat)
    (h : 0 < x → x < data.length) :
    checksumAux data (x : Int) (some a) = some (a + specSum data x) := by
  by_cases hx : 0 < x
  · have hlt := h hx
    have hget : data.get? x = some (data.getD x 0) := by
      cases hq : data.get? x with
      | none =>
        rw [List.get?_eq_none] at hq
        omega
      | some b =>
        rw [List.getD_eq_getD_get?, hq]
        rfl
    rw [checksumAux, if_pos (by exact_mod_cast hx)]
    rw [show ((x : Int)).toNat = x from Int.toNat_natCast x, hget]
    rw [show checksumStep (some a) (some (data.getD x 0)) =
      some (a + data.getD x 0) from rfl]
    rw [specSum, if_pos hx]
    by_cases h200 : 200 ≤ x
    · rw [show (x : Int) - 200 = ((x - 200 : Nat) : Int) by omega,
        checksumAux_eq_specSum data (x - 200) (a + data.getD x 0)
          (fun _ => by omega)]
      congr 1
      omega
    · rw [checksumAux_nonpos data _ _ (by omega),
        show x - 200 = 0 by omega, specSum_zero]
      congr 1
  · rw [checksumAux, if_neg (by exact_mod_cast hx), specSum, if_neg hx]
    congr 1
termination_by x
decreasing_by
  simp_wf
  omega

lemma checksumField_eq (nc p : Nat) (content : List Nat)
    (hin : 200 < p → p - 200 < content.length) :
    checksumField (some nc) p content =
      (nc + specSum content (p - 200)) % 2 ^ 32 := by
  unfold checksumField
  by_cases hp : 200 < p
  · rw [show (p : Int) - 200 = ((p - 200 : Nat) : Int) by omega,
      checksumAux_eq_specSum content (p - 200) nc (fun _ => hin hp)]
  · rw [checksumAux_nonpos content _ _ (by omega),
      show p - 200 = 0 by omega, specSum_zero]
    simp

lemma checksumField_lt (nonce : Option Nat) (p : Nat) (content : List Nat) :
    checksumField nonce p content < 2 ^ 32 := by
  unfold checksumField
  rcases checksumAux content ((p : Int) - 200) nonce with _ | v
  · norm_num
  · exact Nat.mod_lt _ (by norm_num)

lemma be32_mod (v : Nat) : be32 (v % 2 ^ 32) = be32 v := by
  simp only [be32, List.cons.injEq, and_true]
  refine ⟨?_, ?_, ?_, ?_⟩ <;> omega

lemma writeAt_zero (l bs : List Nat) : writeAt l 0 bs = bs ++ l.drop bs.length := by
  simp [writeAt]

lemma writeAt_mid (A B bs : List Nat) :
    writeAt (A ++ B) A.length bs = A ++ bs ++ B.drop bs.length := by
  unfold writeAt
  rw [List.take_left, List.drop_append]

lemma writeAt_end_split (X bs : List Nat) (off : Nat)
    (hoff : off + bs.length = X.length) :
    writeAt X off bs = X.take off ++ bs ∧
    (writeAt X off bs).drop off = bs := by
  unfold writeAt
  rw [hoff, List.drop_length, List.append_nil]
  exact ⟨rfl, List.drop_left' (by rw [List.length_take]; omega)⟩

lemma getU32_after (A : List Nat) (v : Nat) :
    getU32 (A ++ be32 v) A.length = some (v % 2 ^ 32) := by
  unfold getU32 be32
  rw [if_pos (by simp [be32])]
  rw [List.getD_append_right _ _ _ _ (by omega),
    List.getD_append_right _ _ _ _ (by omega),
    List.getD_append_right _ _ _ _ (by omega),
    List.getD_append_right _ _ _ _ (by omega)]
  simp only [be32, Nat.sub_self, show A.length + 1 - A.length = 1 by omega,
    show A.length + 2 - A.length = 2 by omega,
    show A.length + 3 - A.length = 3 by omega]
  simp only [List.getD_cons_zero, List.getD_cons_succ]
  congr 1
  omega

lemma be32_length (v : Nat) : (be32 v).length = 4 := rfl

/-- C2: the 4-byte big-endian checksum field of a reconstructed entry —
its last 4 bytes — encodes `nonce + Σ content[x]` for
`x = pageSize-200, pageSize-400, ...` while `x > 0`, each byte added as an
unsigned value, reduced modulo `2^32`, whenever the sampled indices fall
inside the content array. -/
theorem c2_checksum_matches_spec (nc p pn : Nat) (content : List Nat)
    (hfit : content.length + 4 ≤ p + 8)
    (hin : 200 < p → p - 200 < content.length) :
    ∃ entry, buildEntry (some nc) p pn content = some entry ∧
      entry.drop (p + 4) = be32 (nc + specSum content (p - 200)) ∧
      getU32 entry (p + 4) =
        some ((nc + specSum content (p - 200)) % 2 ^ 32) := by
  have hck := checksumField_eq nc p content hin
  have h1 : (writeAt (List.replicate (p + 8) 0) 0 (be32 pn)).length = p + 8 :=
    (writeAt_length _ _ _
      (by rw [be32_length, List.length_replicate]; omega)).trans
      (List.length_replicate _ _)
  have hX : (writeAt (writeAt (List.replicate (p + 8) 0) 0 (be32 pn))
      4 content).length = p + 8 :=
    (writeAt_length _ _ _ (by rw [h1]; omega)).trans h1
  obtain ⟨hsp1, hsp2⟩ := writeAt_end_split
    (writeAt (writeAt (List.replicate (p + 8) 0) 0 (be32 pn)) 4 content)
    (be32 (checksumField (some nc) p content)) (p + 4)
    (by rw [be32_length, hX])
  have htl : ((writeAt (writeAt (List.replicate (p + 8) 0) 0 (be32 pn))
      4 content).take (p + 4)).length = p + 4 := by
    rw [List.length_take, hX]
    omega
  refine ⟨writeAt (writeAt (writeAt (List.replicate (p + 8) 0) 0 (be32 pn))
    4 content) (p + 4) (be32 (checksumField (some nc) p content)),
    ?_, ?_, ?_⟩
  · unfold buildEntry
    rw [if_pos hfit]
  · rw [hsp2, hck, be32_mod]
  · rw [hsp1]
    nth_rewrite 2 [← htl]
    rw [getU32_after, Nat.mod_eq_of_lt (checksumField_lt _ _ _), hck]

/-- Witness for C2 at `pageSize = 201`, content `[10, 7]`, nonce
`2^32 - 3`: the single sampled byte is `content[1] = 7` and the field
wraps around to 4. -/
theorem c2_checksum_matches_spec_witness :
    ∃ entry, buildEntry (some (2 ^ 32 - 3)) 201 1 [10, 7] = some entry ∧
      entry.drop (201 + 4) =
        be32 ((2 ^ 32 - 3) + specSum [10, 7] (201 - 200)) ∧
      getU32 entry (201 + 4) =
        some (((2 ^ 32 - 3) + specSum [10, 7] (201 - 200)) % 2 ^ 32) :=
  c2_checksum_matches_spec (2 ^ 32 - 3) 201 1 [10, 7] (by decide)
    (fun _ => by decide)

lemma getU32_append_left (l t : List Nat) (off : Nat)
    (h : off + 4 ≤ l.length) :
    getU32 (l ++ t) off = getU32 l off := by
  unfold getU32
  rw [if_pos (by rw [List.length_append]; omega), if_pos h,
    List.getD_append _ _ _ _ (by omega), List.getD_append _ _ _ _ (by omega),
    List.getD_append _ _ _ _ (by omega), List.getD_append _ _ _ _ (by omega)]

lemma getU32_some_length (l : List Nat) (off v : Nat)
    (h : getU32 l off = some v) : off + 4 ≤ l.length := by
  by_contra hc
  unfold getU32 at h
  rw [if_neg hc] at h
  exact Option.noConfusion h

lemma writeAt_mid' (A B bs : List Nat) (off : Nat) (hoff : A.length = off) :
    writeAt (A ++ B) off bs = A ++ bs ++ B.drop bs.length := by
  subst hoff
  exact writeAt_mid A B bs

/-- Reconstruction of a full entry when the fetched content has exactly
`pageSize` bytes: page number, content and checksum land back to back. -/
lemma buildEntry_eq (nonce : Option Nat) (p pn : Nat) (content : List Nat)
    (hclen : content.length = p) :
    buildEntry nonce p pn content =
      some (be32 pn ++ (content ++ be32 (checksumField nonce p content))) := by
  unfold buildEntry
  rw [if_pos (by omega)]
  congr 1
  have e1 : writeAt (List.replicate (p + 8) 0) 0 (be32 pn) =
      be32 pn ++ List.replicate (p + 4) 0 := by
    rw [writeAt_zero, be32_length, List.drop_replicate,
      show p + 8 - 4 = p + 4 by omega]
  rw [e1]
  have e2 : writeAt (be32 pn ++ List.replicate (p + 4) 0) 4 content =
      be32 pn ++ (content ++ List.replicate 4 0) := by
    rw [writeAt_mid' (be32 pn) (List.replicate (p + 4) 0) content 4
      (be32_length pn), List.drop_replicate, hclen,
      show p + 4 - p = 4 by omega, List.append_assoc]
  rw [e2, ← List.append_assoc]
  rw [writeAt_mid' (be32 pn ++ content) (List.replicate 4 0)
    (be32 (checksumField nonce p content)) (p + 4)
    (by rw [List.length_append, be32_length, hclen]; omega),
    List.drop_replicate, be32_length, Nat.sub_self, List.replicate_zero,
    List.append_nil, List.append_assoc]

/-- The cache-hit entry read: no fetch, no state change. -/
lemma xRead_entry_hit (store : Int → Option (List Nat)) (st : JState)
    (iOffset len s p pn : Nat) (entry : List Nat)
    (hs : st.sectorSize = some s) (hp : st.pageSize = some p)
    (hshort : isShortRead st iOffset = false)
    (hge : s ≤ iOffset)
    (hslot : st.pageIndexes.getD ((iOffset - s) / (p + 8)) none = some pn)
    (hcache : st.cachedPageIndex = pn)
    (hentry : st.cachedPageEntry = some entry) :
    xRead store st iOffset len =
      .ok ({ short := false,
             written := (entry.drop ((iOffset - s) % (p + 8))).take len,
             fetched := false }, st) := by
  have hge' : jsGE iOffset st.sectorSize = true := by
    rw [hs]
    exact decide_eq_true hge
  unfold xRead
  rw [hshort, hge', hs, hp]
  simp only [Bool.false_eq_true, if_false, if_true, hslot, hcache, hentry]

/-- The cache-miss entry read: fetch, rebuild, install in the cache. -/
lemma xRead_entry_miss (store : Int → Option (List Nat)) (st : JState)
    (iOffset len s p pn : Nat) (content entry : List Nat)
    (hs : st.sectorSize = some s) (hp : st.pageSize = some p)
    (hshort : isShortRead st iOffset = false)
    (hge : s ≤ iOffset)
    (hslot : st.pageIndexes.getD ((iOffset - s) / (p + 8)) none = some pn)
    (hcache : st.cachedPageIndex ≠ pn)
    (hstore : store ((pn : Int) - 1) = some content)
    (hbuild : buildEntry st.nonce p pn content = some entry) :
    xRead store st iOffset len =
      .ok ({ short := false,
             written := (entry.drop ((iOffset - s) % (p + 8))).take len,
             fetched := true },
           { st with cachedPageIndex := pn, cachedPageEntry := some entry }) := by
  have hge' : jsGE iOffset st.sectorSize = true := by
    rw [hs]
    exact decide_eq_true hge
  unfold xRead
  rw [hshort, hge', hs, hp]
  simp only [Bool.false_eq_true, if_false, if_true, hslot, hcache, hstore,
    hbuild]

lemma bool_not_true {b : Bool} (h : ¬ b = true) : b = false := by
  cases hx : b
  · rfl
  · exact absurd hx h

lemma jsGE_eq_true_iff (iOffset : Nat) (o : Option Nat) :
    jsGE iOffset o = true ↔ ∃ s, o = some s ∧ s ≤ iOffset := by
  cases o with
  | none => simp [jsGE]
  | some s => simp [jsGE]

lemma xRead_short (store : Int → Option (List Nat)) (st : JState)
    (iOffset len : Nat) (h : isShortRead st iOffset = true) :
    xRead store st iOffset len =
      .ok ({ short := true, written := [], fetched := false }, st) := by
  unfold xRead
  rw [h]
  simp

lemma xRead_entry_noPage (store : Int → Option (List Nat)) (st : JState)
    (iOffset len s : Nat)
    (hs : st.sectorSize = some s) (hp : st.pageSize = none)
    (hshort : isShortRead st iOffset = false) (hge : s ≤ iOffset) :
    xRead store st iOffset len =
      .error "entry arithmetic on unset page size" := by
  have hge' : jsGE iOffset st.sectorSize = true := by
    rw [hs]
    exact decide_eq_true hge
  unfold xRead
  rw [hshort, hge', hs, hp]
  rfl

/-- The entry branch of `xRead`, with every inner outcome left open. -/
lemma xRead_entry_cases (store : Int → Option (List Nat)) (st : JState)
    (iOffset len s p : Nat)
    (hs : st.sectorSize = some s) (hp : st.pageSize = some p)
    (hshort : isShortRead st iOffset = false) (hge : s ≤ iOffset) :
    xRead store st iOffset len =
      match st.pageIndexes.getD ((iOffset - s) / (p + 8)) none with
      | none => .error "unassigned ledger slot"
      | some pn =>
        if st.cachedPageIndex = pn then
          match st.cachedPageEntry with
          | none => .error "null cached entry"
          | some entry =>
            .ok ({ short := false,
                   written := (entry.drop ((iOffset - s) % (p + 8))).take len,
                   fetched := false }, st)
        else
          match store ((pn : Int) - 1) with
          | none => .error "page not in store"
          | some content =>
            match buildEntry st.nonce p pn content with
            | none => .error "page content exceeds entry size"
            | some entry =>
              .ok ({ short := false,
                     written :=
                       (entry.drop ((iOffset - s) % (p + 8))).take len,
                     fetched := true },
                   { st with cachedPageIndex := pn,
                             cachedPageEntry := some entry }) := by
  have hge' : jsGE iOffset st.sectorSize = true := by
    rw [hs]
    exact decide_eq_true hge
  unfold xRead
  rw [hshort, hge', hs, hp]
  rfl

lemma resolvesPage_some (st : JState) (iOffset pn : Nat)
    (h : resolvesPage st iOffset = some pn) :
    isShortRead st iOffset = false ∧
    ∃ s p, st.sectorSize = some s ∧ st.pageSize = some p ∧ s ≤ iOffset ∧
      st.pageIndexes.getD ((iOffset - s) / (p + 8)) none = some pn := by
  unfold resolvesPage at h
  by_cases hsr : isShortRead st iOffset = true
  · rw [if_pos hsr] at h
    exact Option.noConfusion h
  · have hsr' := bool_not_true hsr
    refine ⟨hsr', ?_⟩
    simp only [hsr', Bool.false_eq_true, if_false] at h
    rcases hx : st.sectorSize with _ | s
    · simp only [hx] at h
      exact Option.noConfusion h
    rcases hy : st.pageSize with _ | p
    · simp only [hx, hy] at h
      exact Option.noConfusion h
    simp only [hx, hy] at h
    by_cases hle : s ≤ iOffset
    · rw [if_pos hle] at h
      exact ⟨s, p, rfl, rfl, hle, h⟩
    · rw [if_neg hle] at h
      exact Option.noConfusion h

lemma resolvesPage_eq (st : JState) (iOffset s p : Nat)
    (hs : st.sectorSize = some s) (hp : st.pageSize = some p)
    (hsr : isShortRead st iOffset = false) (hge : s ≤ iOffset) :
    resolvesPage st iOffset =
      st.pageIndexes.getD ((iOffset - s) / (p + 8)) none := by
  unfold resolvesPage
  rw [hsr, hs, hp]
  simp [hge]

lemma getD_some_lt (l : List (Option Nat)) (i pn : Nat)
    (h : l.getD i none = some pn) : i < l.length := by
  by_contra hc
  rw [List.getD_eq_default _ _ (by omega)] at h
  exact Option.noConfusion h

lemma entry_offset_arith (s p i iOffset : Nat)
    (hlo : s + i * (p + 8) ≤ iOffset)
    (hhi : iOffset < s + (i + 1) * (p + 8)) :
    (iOffset - s) / (p + 8) = i ∧
    (iOffset - s) % (p + 8) = iOffset - (s + i * (p + 8)) := by
  have hsucc : (i + 1) * (p + 8) = i * (p + 8) + (p + 8) := by ring
  rw [hsucc] at hhi
  set K := i * (p + 8) with hK
  have h1 : iOffset - s = (iOffset - (s + K)) + K := by omega
  rw [h1]
  constructor
  · rw [hK, Nat.add_mul_div_right _ _ (by omega : 0 < p + 8),
      Nat.div_eq_of_lt (by omega)]
    omega
  · rw [hK, Nat.add_mul_mod_self_right]
    exact Nat.mod_eq_of_lt (by omega)

lemma isShortRead_eq_false (st : JState) (iOffset : Nat)
    (h : st.sectorSize = none ∨ ∃ s, st.sectorSize = some s ∧ iOffset < s) :
    isShortRead st iOffset = false := by
  unfold isShortRead totalLen
  rcases h with h | ⟨s, hs, hlt⟩
  · rw [h]
  · rw [hs]
    cases st.pageSize with
    | none => rfl
    | some p =>
      simp only [decide_eq_false_iff_not, not_le]
      exact lt_of_lt_of_le hlt (Nat.le_add_right _ _)

lemma jsGE_eq_false (iOffset : Nat) (o : Option Nat)
    (h : o = none ∨ ∃ s, o = some s ∧ iOffset < s) :
    jsGE iOffset o = false := by
  rcases h with h | ⟨s, hs, hlt⟩
  · rw [h]; rfl
  · rw [hs]
    simpa [jsGE] using hlt

/-- A read below both the short-read bound and the sector size is served
from the header buffer and changes no state. -/
lemma xRead_header (store : Int → Option (List Nat)) (st : JState)
    (iOffset len : Nat)
    (h1 : isShortRead st iOffset = false)
    (h2 : jsGE iOffset st.sectorSize = false) :
    xRead store st iOffset len =
      .ok ({ short := false,
             written := (st.headerSector.drop iOffset).take len,
             fetched := false }, st) := by
  unfold xRead
  rw [h1, h2]
  simp

lemma parseHeader_sectorSize (st : JState) :
    (parseHeader st).1.sectorSize = st.sectorSize ∨
    ∃ v, v ≠ 0 ∧ (parseHeader st).1.sectorSize = some v := by
  unfold parseHeader
  rcases getU32 st.headerSector 12 with _ | v12
  · exact .inl rfl
  rcases getU32 st.headerSector 20 with _ | v20
  · exact .inl rfl
  rcases getU32 st.headerSector 24 with _ | v24 <;> by_cases hv : v20 = 0
  · exact .inl (by simp [hv])
  · exact .inr ⟨v20, hv, by simp [hv]⟩
  · exact .inl (by simp [hv])
  · exact .inr ⟨v20, hv, by simp [hv]⟩

/-- Effect of a no-gap header-region write on the final state: the header
buffer is the grow-then-copy result whatever the offset-0 parse does, and
the sector size either survives or is set to a nonzero parsed value. -/
lemma xWrite_header_effects (st : JState) (iOffset : Nat) (bytes : List Nat)
    (hreg : jsGE iOffset st.sectorSize = false)
    (hoff : iOffset ≤ st.headerSector.length) :
    (xWrite st iOffset bytes).1.headerSector =
      writeAt (if st.headerSector.length < iOffset + bytes.length then
                 st.headerSector ++ List.replicate bytes.length 0
               else st.headerSector) iOffset bytes ∧
    ((xWrite st iOffset bytes).1.sectorSize = st.sectorSize ∨
      (iOffset = 0 ∧
        ∃ v, v ≠ 0 ∧ (xWrite st iOffset bytes).1.sectorSize = some v)) := by
  have hdr1 := xWriteStep1_header st iOffset bytes hreg hoff
  unfold xWrite
  rw [hdr1]
  by_cases h0 : iOffset = 0
  · subst h0
    simp only [if_pos rfl]
    by_cases hb : bytes.head?.getD 0 = 0
    · simp [hb, List.headD_eq_head?_getD]
    · simp only [List.headD_eq_head?_getD, ne_eq, hb, not_false_eq_true,
        if_true]
      refine ⟨(parseHeader_frame _).2.1, ?_⟩
      rcases parseHeader_sectorSize
          { st with headerSector :=
              writeAt (if st.headerSector.length < 0 + bytes.length then
                st.headerSector ++ List.replicate bytes.length 0
                else st.headerSector) 0 bytes } with h | ⟨v, hv, h⟩
      · exact .inl h
      · exact .inr ⟨by trivial, v, hv, h⟩
  · simp [h0]

/-- C1: for a page number `pn` stored at ledger slot `i` (header fields
set, page present in the backing store with exactly `pageSize` bytes,
cache cold for `pn` or holding its reconstruction), every sub-read whose
offset falls in slot `i`'s entry region returns the bytes of
`entryBytes = be32 pn ++ storeContent ++ be32 checksum` starting at
`(offset - sectorSize) mod entrySize`, and leaves that full entry cached —
so any split of the entry region into sub-reads reconstructs exactly
`entryBytes`. -/
theorem c1_entry_region_reconstruction (store : Int → Option (List Nat))
    (st : JState) (s p nc i pn iOffset len : Nat) (content : List Nat)
    (hs : st.sectorSize = some s) (hp : st.pageSize = some p)
    (hn : st.nonce = some nc)
    (hslot : st.pageIndexes.getD i none = some pn)
    (hstore : store ((pn : Int) - 1) = some content)
    (hclen : content.length = p)
    (hcache : st.cachedPageIndex ≠ pn ∨
      st.cachedPageEntry = some (entryBytes nc p pn content))
    (hlo : s + i * (p + 8) ≤ iOffset)
    (hhi : iOffset < s + (i + 1) * (p + 8)) :
    ∃ f, xRead store st iOffset len =
      .ok ({ short := false,
             written := ((entryBytes nc p pn content).drop
               (iOffset - (s + i * (p + 8)))).take len,
             fetched := f },
           { st with cachedPageIndex := pn,
                     cachedPageEntry := some (entryBytes nc p pn content) }) := by
  obtain ⟨hdiv, hmod⟩ := entry_offset_arith s p i iOffset hlo hhi
  have hlen : i < st.pageIndexes.length := getD_some_lt _ _ _ hslot
  have hshort : isShortRead st iOffset = false := by
    unfold isShortRead totalLen
    rw [hs, hp]
    simp only [decide_eq_false_iff_not, not_le]
    calc iOffset < s + (i + 1) * (p + 8) := hhi
      _ ≤ s + st.pageIndexes.length * (p + 8) :=
          Nat.add_le_add_left (Nat.mul_le_mul_right _ (by omega)) s
  have hge : s ≤ iOffset := by
    have := Nat.zero_le (i * (p + 8))
    omega
  have hslot' : st.pageIndexes.getD ((iOffset - s) / (p + 8)) none
      = some pn := by
    rw [hdiv]
    exact hslot
  have hbuild : buildEntry st.nonce p pn content =
      some (entryBytes nc p pn content) := by
    rw [hn, buildEntry_eq _ _ _ _ hclen]
    rfl
  by_cases hc : st.cachedPageIndex = pn
  · have hentry : st.cachedPageEntry = some (entryBytes nc p pn content) := by
      rcases hcache with h | h
      · exact absurd hc h
      · exact h
    have hst : ({ st with cachedPageIndex := pn,
                          cachedPageEntry :=
                            some (entryBytes nc p pn content) } : JState)
        = st := by
      rw [← hentry, ← hc]
    refine ⟨false, ?_⟩
    rw [xRead_entry_hit store st iOffset len s p pn _ hs hp hshort hge
      hslot' hc hentry, hmod, hst]
  · refine ⟨true, ?_⟩
    rw [xRead_entry_miss store st iOffset len s p pn content _ hs hp hshort
      hge hslot' hc hstore hbuild, hmod]

/-- Witness for C1: a mid-entry sub-read of slot 0 (offset 6, length 4)
against the tiny state returns entry bytes 4..7 and caches the entry. -/
theorem c1_entry_region_reconstruction_witness :
    ∃ f, xRead tinyStore tinyState 6 4 =
      .ok ({ short := false,
             written := ((entryBytes 5 1 3 [9]).drop
               (6 - (2 + 0 * (1 + 8)))).take 4,
             fetched := f },
           { tinyState with cachedPageIndex := 3,
                            cachedPageEntry := some (entryBytes 5 1 3 [9]) }) :=
  c1_entry_region_reconstruction tinyStore tinyState 2 1 5 0 3 6 4 [9]
    rfl rfl rfl (by decide) (by decide) (by decide)
    (Or.inl (by decide)) (by decide) (by decide)

/-- C8: re-issuing a successful read of the same range against the
unchanged resulting state returns the same bytes and the same short-read
status, leaving the state fixed; and when the first read resolved an
entry for page `pn`, any second read resolving the same page number is
served from the single-entry cache without fetching from the backing
store. -/
theorem c8_repeat_read_identical_and_cached
    (store : Int → Option (List Nat)) (st st1 : JState)
    (iOffset len : Nat) (r1 : ReadOut)
    (h1 : xRead store st iOffset len = .ok (r1, st1)) :
    (∃ r2, xRead store st1 iOffset len = .ok (r2, st1) ∧
      r2.written = r1.written ∧ r2.short = r1.short) ∧
    (∀ pn iOffset2 len2, resolvesPage st iOffset = some pn →
      resolvesPage st1 iOffset2 = some pn →
      ∃ r2, xRead store st1 iOffset2 len2 = .ok (r2, st1) ∧
        r2.fetched = false) := by
  by_cases hsrt : isShortRead st iOffset = true
  · rw [xRead_short store st iOffset len hsrt] at h1
    simp only [Except.ok.injEq, Prod.mk.injEq] at h1
    obtain ⟨hr, hst⟩ := h1
    subst hst
    constructor
    · exact ⟨_, xRead_short store st iOffset len hsrt,
        by rw [← hr], by rw [← hr]⟩
    · intro pn iOffset2 len2 hres1 _
      exfalso
      unfold resolvesPage at hres1
      rw [if_pos hsrt] at hres1
      exact Option.noConfusion hres1
  · have hsr : isShortRead st iOffset = false := bool_not_true hsrt
    by_cases hget : jsGE iOffset st.sectorSize = true
    · obtain ⟨s, hs, hges⟩ := (jsGE_eq_true_iff iOffset st.sectorSize).mp hget
      rcases hp : st.pageSize with _ | p
      · rw [xRead_entry_noPage store st iOffset len s hs hp hsr hges] at h1
        exact Except.noConfusion h1
      rw [xRead_entry_cases store st iOffset len s p hs hp hsr hges] at h1
      rcases hslot : st.pageIndexes.getD ((iOffset - s) / (p + 8)) none
        with _ | pn0
      · rw [hslot] at h1
        exact Except.noConfusion h1
      rw [hslot] at h1
      simp only [] at h1
      by_cases hc : st.cachedPageIndex = pn0
      · rw [if_pos hc] at h1
        rcases hpe : st.cachedPageEntry with _ | entry
        · rw [hpe] at h1
          exact Except.noConfusion h1
        rw [hpe] at h1
        simp only [Except.ok.injEq, Prod.mk.injEq] at h1
        obtain ⟨hr, hst⟩ := h1
        subst hst
        constructor
        · exact ⟨_, xRead_entry_hit store st iOffset len s p pn0 entry hs hp
            hsr hges hslot hc hpe, by rw [← hr], by rw [← hr]⟩
        · intro pn iOffset2 len2 hres1 hres2
          have hpn : pn = pn0 := by
            rw [resolvesPage_eq st iOffset s p hs hp hsr hges, hslot] at hres1
            exact (Option.some.injEq _ _ ▸ hres1.symm :)
          subst hpn
          obtain ⟨hsr2, s2, p2, hs2, hp2, hge2, hslot2⟩ :=
            resolvesPage_some st iOffset2 pn hres2
          exact ⟨_, xRead_entry_hit store st iOffset2 len2 s2 p2 pn entry
            hs2 hp2 hsr2 hge2 hslot2 hc hpe, rfl⟩
      · rw [if_neg hc] at h1
        rcases hfetch : store ((pn0 : Int) - 1) with _ | content
        · rw [hfetch] at h1
          exact Except.noConfusion h1
        simp only [hfetch] at h1
        rcases hb : buildEntry st.nonce p pn0 content with _ | entry
        · rw [hb] at h1
          exact Except.noConfusion h1
        simp only [hb] at h1
        simp only [Except.ok.injEq, Prod.mk.injEq] at h1
        obtain ⟨hr, hst⟩ := h1
        subst hst
        constructor
        · exact ⟨_, xRead_entry_hit store _ iOffset len s p pn0 entry hs hp
            hsr hges hslot rfl rfl, by rw [← hr], by rw [← hr]⟩
        · intro pn iOffset2 len2 hres1 hres2
          have hpn : pn = pn0 := by
            rw [resolvesPage_eq st iOffset s p hs hp hsr hges, hslot] at hres1
            exact (Option.some.injEq _ _ ▸ hres1.symm :)
          subst hpn
          obtain ⟨hsr2, s2, p2, hs2, hp2, hge2, hslot2⟩ :=
            resolvesPage_some _ iOffset2 pn hres2
          exact ⟨_, xRead_entry_hit store _ iOffset2 len2 s2 p2 pn entry
            hs2 hp2 hsr2 hge2 hslot2 rfl rfl, rfl⟩
    · have hge' : jsGE iOffset st.sectorSize = false := bool_not_true hget
      rw [xRead_header store st iOffset len hsr hge'] at h1
      simp only [Except.ok.injEq, Prod.mk.injEq] at h1
      obtain ⟨hr, hst⟩ := h1
      subst hst
      constructor
      · exact ⟨_, xRead_header store st iOffset len hsr hge',
          by rw [← hr], by rw [← hr]⟩
      · intro pn iOffset2 len2 hres1 _
        exfalso
        obtain ⟨_, sa, pa, hsa, _, hgea, _⟩ :=
          resolvesPage_some st iOffset pn hres1
        rw [hsa] at hge'
        simp [jsGE] at hge'
        omega

/-- Witness for C8: the first full-entry read against the tiny state
fetches; re-issuing the same range returns the same bytes with no state
change, and a second read of the same page is a cache hit. -/
theorem c8_repeat_read_identical_and_cached_witness :
    (∃ r2, xRead tinyStore tinyCached 2 9 = .ok (r2, tinyCached) ∧
      r2.written = tinyOut.written ∧ r2.short = tinyOut.short) ∧
    (∃ r2, xRead tinyStore tinyCached 6 4 = .ok (r2, tinyCached) ∧
      r2.fetched = false) := by
  have hck : checksumField (some 5) 1 [9] = 5 := by
    unfold checksumField
    rw [checksumAux_nonpos _ _ _ (by norm_num)]
    decide
  have hbuild : buildEntry tinyState.nonce 1 3 [9] =
      some [0, 0, 0, 3, 9, 0, 0, 0, 5] := by
    rw [show tinyState.nonce = some 5 from rfl,
      buildEntry_eq (some 5) 1 3 [9] rfl, hck]
    decide
  have h1 : xRead tinyStore tinyState 2 9 = .ok (tinyOut, tinyCached) := by
    rw [xRead_entry_miss tinyStore tinyState 2 9 2 1 3 [9]
      [0, 0, 0, 3, 9, 0, 0, 0, 5] rfl rfl (by decide) (by decide)
      (by decide) (by decide) (by decide) hbuild]
    rfl
  have h := c8_repeat_read_identical_and_cached tinyStore tinyState
    tinyCached 2 9 tinyOut h1
  exact ⟨h.1, h.2 3 6 4 (by decide) (by decide)⟩

/-- C4 counterexample: a header write whose page-size field (offset 24)
is zero does not keep the previous `pageSize` of 4096; it falls back to
the just-parsed sector-size value 512. -/
theorem c4_page_size_fallback_counterexample :
    c4State.pageSize = some 4096 ∧
    (xWrite c4State 0 c4Bytes).2 = none ∧
    (xWrite c4State 0 c4Bytes).1.sectorSize = some 512 ∧
    (xWrite c4State 0 c4Bytes).1.pageSize = some 512 ∧
    some (512 : Nat) ≠ some (4096 : Nat) :=
  ⟨by decide, by decide, by decide, by decide, by decide⟩

/-- C4 (amended): a write at offset 0 with nonzero first byte extracts
`nonce`, `sectorSize`, `pageSize` from the header buffer at offsets
12, 20, 24; a zero sector-size field keeps the previous `sectorSize`,
while a zero page-size field sets `pageSize` to the updated `sectorSize`
value (not to the previous `pageSize`). -/
theorem c4_header_field_extraction (st : JState) (bytes : List Nat)
    (v12 v20 v24 : Nat)
    (hss : st.sectorSize ≠ some 0)
    (hb0 : bytes.headD 0 ≠ 0)
    (h12 : getU32 bytes 12 = some v12)
    (h20 : getU32 bytes 20 = some v20)
    (h24 : getU32 bytes 24 = some v24) :
    (xWrite st 0 bytes).2 = none ∧
    (xWrite st 0 bytes).1.nonce = some v12 ∧
    (xWrite st 0 bytes).1.sectorSize =
      (if v20 ≠ 0 then some v20 else st.sectorSize) ∧
    (xWrite st 0 bytes).1.pageSize =
      (if v24 ≠ 0 then some v24
       else if v20 ≠ 0 then some v20 else st.sectorSize) := by
  have hlen : 28 ≤ bytes.length := getU32_some_length bytes 24 v24 h24
  have hreg := jsGE_zero_eq_false st.sectorSize hss
  have hdr1 := xWriteStep1_header st 0 bytes hreg (Nat.zero_le _)
  have hb0' : ¬ bytes.head?.getD 0 = 0 := by
    simpa [List.headD_eq_head?_getD] using hb0
  have hw : writeAt (if st.headerSector.length < 0 + bytes.length then
        st.headerSector ++ List.replicate bytes.length 0
      else st.headerSector) 0 bytes =
      bytes ++ (if st.headerSector.length < 0 + bytes.length then
        st.headerSector ++ List.replicate bytes.length 0
      else st.headerSector).drop bytes.length := by
    simp [writeAt]
  have hg12 : getU32 (writeAt (if st.headerSector.length < 0 + bytes.length
      then st.headerSector ++ List.replicate bytes.length 0
      else st.headerSector) 0 bytes) 12 = some v12 := by
    rw [hw, getU32_append_left _ _ _ (by omega), h12]
  have hg20 : getU32 (writeAt (if st.headerSector.length < 0 + bytes.length
      then st.headerSector ++ List.replicate bytes.length 0
      else st.headerSector) 0 bytes) 20 = some v20 := by
    rw [hw, getU32_append_left _ _ _ (by omega), h20]
  have hg24 : getU32 (writeAt (if st.headerSector.length < 0 + bytes.length
      then st.headerSector ++ List.replicate bytes.length 0
      else st.headerSector) 0 bytes) 24 = some v24 := by
    rw [hw, getU32_append_left _ _ _ (by omega), h24]
  unfold xWrite
  rw [hdr1]
  simp only [List.headD_eq_head?_getD, ne_eq, hb0', not_false_eq_true,
    if_true, if_pos rfl]
  rw [parseHeader_ok _ v12 v20 v24 hg12 hg20 hg24]
  exact ⟨rfl, rfl, rfl, rfl⟩

/-- Witness for C4 (amended) at the concrete 28-byte header image: sector
size becomes 512 and the zero page-size field also yields 512. -/
theorem c4_header_field_extraction_witness :
    (xWrite c4State 0 c4Bytes).2 = none ∧
    (xWrite c4State 0 c4Bytes).1.nonce = some 1 ∧
    (xWrite c4State 0 c4Bytes).1.sectorSize =
      (if (512 : Nat) ≠ 0 then some 512 else c4State.sectorSize) ∧
    (xWrite c4State 0 c4Bytes).1.pageSize =
      (if (0 : Nat) ≠ 0 then some 0
       else if (512 : Nat) ≠ 0 then some 512 else c4State.sectorSize) :=
  c4_header_field_extraction c4State c4Bytes 1 512 0 (by decide) (by decide)
    (by decide) (by decide) (by decide)

lemma replicate_getD_zero (k i : Nat) :
    (List.replicate k (0 : Nat)).getD i 0 = 0 := by
  rcases Nat.lt_or_ge i k with h | h
  · rw [List.getD_eq_getElem _ _ (by simpa using h)]
    simp
  · rw [List.getD_eq_default _ _ (by simpa using h)]

/-- Zero-padding a buffer changes no `getD`-with-default-0 value. -/
lemma pad_getD (l : List Nat) (k j : Nat) :
    (l ++ List.replicate k 0).getD j 0 = l.getD j 0 := by
  rcases Nat.lt_or_ge j l.length with hj | hj
  · exact List.getD_append _ _ _ _ hj
  · rw [List.getD_append_right _ _ _ _ hj, List.getD_eq_default _ _ hj,
      replicate_getD_zero]

/-- A `TypedArray.set` leaves every position outside the written range
unchanged. -/
lemma writeAt_getD_frame (l bs : List Nat) (off j : Nat)
    (hfit : off + bs.length ≤ l.length)
    (hj : j < off ∨ off + bs.length ≤ j) :
    (writeAt l off bs).getD j 0 = l.getD j 0 := by
  have hlen_take : (l.take off).length = off := by
    rw [List.length_take]
    omega
  unfold writeAt
  rw [List.append_assoc]
  rcases hj with hj | hj
  · rw [List.getD_append _ _ _ _ (by omega)]
    rw [List.getD_eq_getD_get?, List.getD_eq_getD_get?,
      List.get?_take (by omega)]
  · rw [List.getD_append_right _ _ _ _ (by omega), hlen_take,
      List.getD_append_right _ _ _ _ (by omega)]
    rw [List.getD_eq_getD_get?, List.getD_eq_getD_get?, List.get?_drop,
      show off + bs.length + (j - off - bs.length) = j by omega]

/-- Two buffers agreeing pointwise on an in-bounds range have equal
slices over it. -/
lemma slice_eq_of_getD (A B : List Nat) (a n : Nat)
    (hA : a + n ≤ A.length) (hB : a + n ≤ B.length)
    (h : ∀ j, a ≤ j → j < a + n → A.getD j 0 = B.getD j 0) :
    (A.drop a).take n = (B.drop a).take n := by
  apply List.ext
  intro k
  rcases Nat.lt_or_ge k n with hk | hk
  · rw [List.get?_take hk, List.get?_take hk, List.get?_drop, List.get?_drop]
    have eA : A.get? (a + k) = some (A.getD (a + k) 0) := by
      cases hq : A.get? (a + k) with
      | none =>
        rw [List.get?_eq_none] at hq
        omega
      | some b =>
        rw [List.getD_eq_getD_get?, hq]
        rfl
    have eB : B.get? (a + k) = some (B.getD (a + k) 0) := by
      cases hq : B.get? (a + k) with
      | none =>
        rw [List.get?_eq_none] at hq
        omega
      | some b =>
        rw [List.getD_eq_getD_get?, hq]
        rfl
    rw [eA, eB, h (a + k) (by omega) (by omega)]
  · rw [List.get?_eq_none.mpr (by simp [List.length_take]; omega),
      List.get?_eq_none.mpr (by simp [List.length_take]; omega)]

lemma jsGE_eq_false_elim (a : Nat) (o : Option Nat)
    (h : jsGE a o = false) :
    o = none ∨ ∃ s, o = some s ∧ a < s := by
  cases o with
  | none => exact .inl rfl
  | some s =>
    refine .inr ⟨s, rfl, ?_⟩
    have : ¬ s ≤ a := by simpa [jsGE] using h
    omega

/-- C5 counterexample: a header-region write starting past the current end
of the header buffer (offset 5 into an empty buffer) throws, and the
buffer afterwards is the grown one-byte zero pad — its length 1 is less
than the claimed `offset + len(bytes) = 6`, and the written byte is
nowhere in it. -/
theorem c5_gap_write_counterexample :
    xWrite initState 5 [1] =
      ({ initState with headerSector := [0] }, some "header set out of range") ∧
    ¬ 5 + 1 ≤ ({ initState with headerSector := [0] } : JState).headerSector.length :=
  ⟨by decide, by decide⟩

/-- C5 (amended): for a header-region write whose offset does not exceed
the current header length, the buffer grows to cover the write and never
shrinks, the written bytes occupy `[offset, offset + len)`, every byte
position outside that range keeps its previous value (positions past the
old end read as zero), any previously written range disjoint from this
write still holds the bytes last written there, every header-region read
is served from the buffer as a plain slice with no fetch and no state
change, and in particular reading back the just-written range returns
exactly the written bytes.  (A gap write instead throws; see the
counterexample.) -/
theorem c5_header_write_read_back (store : Int → Option (List Nat))
    (st : JState) (iOffset : Nat) (bytes : List Nat)
    (hreg : jsGE iOffset st.sectorSize = false)
    (hoff : iOffset ≤ st.headerSector.length) :
    st.headerSector.length ≤ (xWrite st iOffset bytes).1.headerSector.length ∧
    iOffset + bytes.length ≤ (xWrite st iOffset bytes).1.headerSector.length ∧
    ((xWrite st iOffset bytes).1.headerSector.drop iOffset).take bytes.length
      = bytes ∧
    (∀ j, j < iOffset ∨ iOffset + bytes.length ≤ j →
      (xWrite st iOffset bytes).1.headerSector.getD j 0 =
        st.headerSector.getD j 0) ∧
    (∀ a n, a + n ≤ st.headerSector.length →
      a + n ≤ iOffset ∨ iOffset + bytes.length ≤ a →
      ((xWrite st iOffset bytes).1.headerSector.drop a).take n =
        (st.headerSector.drop a).take n) ∧
    (∀ a n, jsGE a (xWrite st iOffset bytes).1.sectorSize = false →
      xRead store (xWrite st iOffset bytes).1 a n =
        .ok ({ short := false,
               written :=
                 ((xWrite st iOffset bytes).1.headerSector.drop a).take n,
               fetched := false }, (xWrite st iOffset bytes).1)) ∧
    xRead store (xWrite st iOffset bytes).1 iOffset bytes.length =
      .ok ({ short := false, written := bytes, fetched := false },
           (xWrite st iOffset bytes).1) := by
  obtain ⟨hhdr, hsec⟩ := xWrite_header_effects st iOffset bytes hreg hoff
  have hglen : iOffset + bytes.length ≤
      (if st.headerSector.length < iOffset + bytes.length then
        st.headerSector ++ List.replicate bytes.length 0
      else st.headerSector).length := by
    split
    · simp only [List.length_append, List.length_replicate]; omega
    · omega
  have hlen : (xWrite st iOffset bytes).1.headerSector.length =
      (if st.headerSector.length < iOffset + bytes.length then
        st.headerSector ++ List.replicate bytes.length 0
      else st.headerSector).length := by
    rw [hhdr]
    exact writeAt_length _ _ _ hglen
  have hns : st.headerSector.length ≤
      (xWrite st iOffset bytes).1.headerSector.length := by
    rw [hlen]
    split
    · simp only [List.length_append, List.length_replicate]; omega
    · omega
  have hslice : ((xWrite st iOffset bytes).1.headerSector.drop iOffset).take
      bytes.length = bytes := by
    rw [hhdr]
    exact writeAt_slice _ _ _ hglen
  have hframe : ∀ j, j < iOffset ∨ iOffset + bytes.length ≤ j →
      (xWrite st iOffset bytes).1.headerSector.getD j 0 =
        st.headerSector.getD j 0 := by
    intro j hj
    rw [hhdr, writeAt_getD_frame _ _ _ _ hglen hj]
    split
    · exact pad_getD _ _ _
    · rfl
  have hpersist : ∀ a n, a + n ≤ st.headerSector.length →
      a + n ≤ iOffset ∨ iOffset + bytes.length ≤ a →
      ((xWrite st iOffset bytes).1.headerSector.drop a).take n =
        (st.headerSector.drop a).take n := by
    intro a n hn hdisj
    exact slice_eq_of_getD _ _ a n (le_trans hn hns) hn
      (fun j hj1 hj2 => hframe j (by omega))
  have hsec' : (xWrite st iOffset bytes).1.sectorSize = none ∨
      ∃ s, (xWrite st iOffset bytes).1.sectorSize = some s ∧ iOffset < s := by
    rcases hsec with h | ⟨h0, v, hv, h⟩
    · rw [h]
      cases hx : st.sectorSize with
      | none => exact .inl rfl
      | some s =>
        refine .inr ⟨s, rfl, ?_⟩
        rw [hx] at hreg
        simpa [jsGE] using hreg
    · exact .inr ⟨v, h, by omega⟩
  have hreadgen : ∀ a n, jsGE a (xWrite st iOffset bytes).1.sectorSize
      = false →
      xRead store (xWrite st iOffset bytes).1 a n =
        .ok ({ short := false,
               written :=
                 ((xWrite st iOffset bytes).1.headerSector.drop a).take n,
               fetched := false }, (xWrite st iOffset bytes).1) := by
    intro a n hja
    exact xRead_header store _ a n
      (isShortRead_eq_false _ _ (jsGE_eq_false_elim a _ hja)) hja
  refine ⟨hns, ?_, hslice, hframe, hpersist, hreadgen, ?_⟩
  · rw [hlen]
    exact hglen
  · rw [xRead_header store _ iOffset bytes.length
      (isShortRead_eq_false _ _ hsec') (jsGE_eq_false _ _ hsec'), hslice]

/-- Witness for C5 (amended): overwriting bytes 1..2 of a three-byte
header keeps byte 0 (both pointwise and as a read range), serves a full
header-region read as a slice, and reads back the written bytes. -/
theorem c5_header_write_read_back_witness :
    c5State.headerSector.length ≤
      (xWrite c5State 1 [7, 9]).1.headerSector.length ∧
    1 + [7, 9].length ≤ (xWrite c5State 1 [7, 9]).1.headerSector.length ∧
    (((xWrite c5State 1 [7, 9]).1.headerSector.drop 1).take [7, 9].length
      = [7, 9]) ∧
    (xWrite c5State 1 [7, 9]).1.headerSector.getD 0 0 =
      c5State.headerSector.getD 0 0 ∧
    (((xWrite c5State 1 [7, 9]).1.headerSector.drop 0).take 1 =
      (c5State.headerSector.drop 0).take 1) ∧
    xRead (fun _ => none) (xWrite c5State 1 [7, 9]).1 0 3 =
      .ok ({ short := false,
             written :=
               ((xWrite c5State 1 [7, 9]).1.headerSector.drop 0).take 3,
             fetched := false }, (xWrite c5State 1 [7, 9]).1) ∧
    xRead (fun _ => none) (xWrite c5State 1 [7, 9]).1 1 [7, 9].length =
      .ok ({ short := false, written := [7, 9], fetched := false },
           (xWrite c5State 1 [7, 9]).1) := by
  have h := c5_header_write_read_back (fun _ => none) c5State 1 [7, 9]
    rfl (by decide)
  exact ⟨h.1, h.2.1, h.2.2.1, h.2.2.2.1 0 (Or.inl (by decide)),
    h.2.2.2.2.1 0 1 (by decide) (Or.inl (by decide)),
    h.2.2.2.2.2.1 0 3 (by decide), h.2.2.2.2.2.2⟩

lemma findDbFile_go_no_match (d : List Char) :
    ∀ (m : List (Nat × DbFile)) (acc : Option (Nat × DbFile)),
      (∀ e ∈ m, e.2.name ≠ d) →
      m.foldl (fun acc e => if e.2.name = d then some e else acc) acc = acc
  | [], _, _ => rfl
  | a :: m, acc, h => by
    simp only [List.foldl_cons]
    rw [if_neg (h a (List.mem_cons_self a m))]
    exact findDbFile_go_no_match d m acc fun e he => h e (List.mem_cons_of_mem a he)

lemma findDbFile_go_match (d : List Char) :
    ∀ (m : List (Nat × DbFile)) (acc : Option (Nat × DbFile)),
      (∃ e ∈ m, e.2.name = d) →
      ∃ r, m.foldl (fun acc e => if e.2.name = d then some e else acc) acc =
        some r ∧ r ∈ m ∧ r.2.name = d
  | [], _, h => absurd h (by simp)
  | a :: m, acc, h => by
    by_cases hm : ∃ e ∈ m, e.2.name = d
    · obtain ⟨r, hr, hrm, hrd⟩ := findDbFile_go_match d m
        (if a.2.name = d then some a else acc) hm
      exact ⟨r, by simpa using hr, List.mem_cons_of_mem a hrm, hrd⟩
    · have ha : a.2.name = d := by
        obtain ⟨e, he, hed⟩ := h
        rcases List.mem_cons.mp he with rfl | he'
        · exact hed
        · exact absurd ⟨e, he', hed⟩ hm
      refine ⟨a, ?_, List.mem_cons_self a m, ha⟩
      simp only [List.foldl_cons, if_pos ha]
      exact findDbFile_go_no_match d m (some a) fun e he hed => hm ⟨e, he, hed⟩

/-- C9: opening a journal whose derived database name (journal suffix
stripped) matches no registered database file fails with an unrecoverable
error; when a match exists, the open succeeds and binds a registered
database-file object bearing the derived name. -/
theorem c9_open_requires_registered_db (name : List Char)
    (m : List (Nat × DbFile)) :
    ((∀ e ∈ m, e.2.name ≠ stripJournal name) →
      journalOpen name m = .error "open database not found") ∧
    ((∃ e ∈ m, e.2.name = stripJournal name) →
      ∃ r, journalOpen name m = .ok r ∧ r ∈ m ∧
        r.2.name = stripJournal name) := by
  constructor
  · intro h
    unfold journalOpen findDbFile
    rw [findDbFile_go_no_match (stripJournal name) m none h]
  · intro h
    obtain ⟨r, hr, hrm, hrd⟩ := findDbFile_go_match (stripJournal name) m none h
    refine ⟨r, ?_, hrm, hrd⟩
    unfold journalOpen findDbFile
    rw [hr]

/-- Witness for C9 at a concrete registry: the lookup for `mydb-journal`
fails when only `rest` is registered, and succeeds when `mydb` is. -/
theorem c9_open_requires_registered_db_witness :
    journalOpen ['m','y','d','b','-','j','o','u','r','n','a','l']
      [(1, ⟨['r','e','s','t']⟩)] = .error "open database not found" ∧
    ∃ r, journalOpen ['m','y','d','b','-','j','o','u','r','n','a','l']
      [(1, ⟨['r','e','s','t']⟩), (2, ⟨['m','y','d','b']⟩)] = .ok r ∧
      r ∈ [(1, (⟨['r','e','s','t']⟩ : DbFile)), (2, ⟨['m','y','d','b']⟩)] ∧
      r.2.name =
        stripJournal ['m','y','d','b','-','j','o','u','r','n','a','l'] :=
  ⟨(c9_open_requires_registered_db
      ['m','y','d','b','-','j','o','u','r','n','a','l']
      [(1, ⟨['r','e','s','t']⟩)]).1 (by decide),
   (c9_open_requires_registered_db
      ['m','y','d','b','-','j','o','u','r','n','a','l']
      [(1, ⟨['r','e','s','t']⟩), (2, ⟨['m','y','d','b']⟩)]).2
     ⟨(2, ⟨['m','y','d','b']⟩), by decide, by decide⟩⟩

/-- C10: while `sectorSize` is still the unset `NaN` sentinel, every read
is served from the header buffer and never signals the short-read
condition, whatever the offset and length. -/
theorem c10_unset_sector_serves_header (store : Int → Option (List Nat))
    (st : JState) (iOffset len : Nat) (h : st.sectorSize = none) :
    xRead store st iOffset len =
      .ok ({ short := false,
             written := (st.headerSector.drop iOffset).take len,
             fetched := false }, st) := by
  have h1 : isShortRead st iOffset = false := by
    simp [isShortRead, totalLen, h]
  have h2 : jsGE iOffset st.sectorSize = false := by rw [h]; rfl
  unfold xRead
  rw [h1, h2]
  simp

/-- Witness for C10: a fresh file serves a read far past any data from its
empty header, with no short-read signal. -/
theorem c10_unset_sector_serves_header_witness :
    xRead (fun _ => none) initState 1000000 16 =
      .ok ({ short := false, written := [], fetched := false }, initState) := by
  have h := c10_unset_sector_serves_header (fun _ => none) initState
    1000000 16 rfl
  simpa using h

/-- C3 (divergence witness): at `iOffset = sectorSize + ledgerLength ·
entrySize` the read signals the short-read condition but writes nothing
into the destination — the source's `fill(0, pData.size)` covers the empty
range `[pData.size, pData.value.length)` instead of zero-filling, contrary
to the stated zero-fill; one byte below the boundary no short read is
signalled. -/
theorem c3_short_read_not_zero_filled :
    xRead (fun _ => none) c3State 512 8 =
      .ok ({ short := true, written := [], fetched := false }, c3State) ∧
    ¬ ([] = List.replicate 8 (0 : Nat)) ∧
    xRead (fun _ => none) c3State 511 8 =
      .ok ({ short := false, written := [], fetched := false }, c3State) := by
  refine ⟨by decide, by decide, by decide⟩

end IDBNoJournal
